import Mathlib

/-
Verification of the document-extraction and capacity logic of the ATFM Iraq
dashboard (src/app.py), shallowly embedded in Lean.

Text is modelled as `List Char` (the app's documents are ASCII plus a few
fixed Unicode dash characters).  Python string operations used by the code
(`str.lower`, `in`, `str.strip`, `str.isupper`, `str.isdigit`,
`str.splitlines`) are embedded below for that character set.
-/

namespace ATFM

/-- Python whitespace for `str.strip` / regex `\s` on the ASCII range. -/
def pyIsSpace (c : Char) : Bool :=
  c == ' ' || c == '\t' || c == '\n' || c == '\r' || c == '\x0b' || c == '\x0c'

/-- Python `str.strip()` (ASCII whitespace). -/
def stripChars (l : List Char) : List Char :=
  ((l.dropWhile pyIsSpace).reverse.dropWhile pyIsSpace).reverse

/-- Python `str.lower()` on the characters appearing in the app's data. -/
def lowerStr (l : List Char) : List Char := l.map Char.toLower

/-- Python substring test `needle in hay`. -/
def isSubList (needle : List Char) : List Char → Bool
  | [] => needle.isEmpty
  | c :: rest => needle.isPrefixOf (c :: rest) || isSubList needle rest

/-- Case-insensitive containment `k.lower() in ln.lower()` from app.py. -/
def containsLC (needle hay : List Char) : Bool :=
  isSubList (lowerStr needle) (lowerStr hay)

/-- `any(k.lower() in ln.lower() for k in keywords)` from `extract_section`. -/
def kwMatch (kws : List (List Char)) (l : List Char) : Bool :=
  kws.any (fun k => containsLC k l)

/-- Python `str.isupper()` on ASCII: some cased character, none lowercase. -/
def pyIsUpper (l : List Char) : Bool :=
  l.any Char.isAlpha && !(l.any Char.isLower)

/-- Python `int(...)` on a string of decimal digits. -/
def natOfDigits (l : List Char) : Nat :=
  l.foldl (fun a c => a * 10 + (c.toNat - 48)) 0

/-- Python `str.isdigit()` (ASCII digits): nonempty and all digits. -/
def pyIsDigits (l : List Char) : Bool :=
  !(l.isEmpty) && l.all Char.isDigit

/-- Split on newline characters, keeping a (possibly empty) final segment. -/
def splitlinesCore : List Char → List (List Char)
  | [] => [[]]
  | c :: rest =>
    if c = '\n' then [] :: splitlinesCore rest
    else
      match splitlinesCore rest with
      | [] => [[c]]
      | x :: xs => (c :: x) :: xs

/-- Python `str.splitlines()` for newline-separated text: each newline
terminates a line, and the empty string yields no lines. -/
def pySplitlines (t : List Char) : List (List Char) :=
  match t with
  | [] => []
  | _ =>
    let ps := splitlinesCore t
    if ps.getLast? = some [] then ps.dropLast else ps

/-- Python `"\n".join(...)`. -/
def joinNL (ls : List (List Char)) : List Char := List.intercalate ['\n'] ls

/-- The start-index scan of `extract_section` (app.py lines 132-136):
first line containing any keyword case-insensitively. -/
def startIndexAux (kws : List (List Char)) : List (List Char) → Nat → Option Nat
  | [], _ => none
  | l :: rest, j => if kwMatch kws l then some j else startIndexAux kws rest (j + 1)

/-- Index of the first line matching a keyword, as in app.py lines 132-136. -/
def startIndex (lines : List (List Char)) (kws : List (List Char)) : Option Nat :=
  startIndexAux kws lines 0

/-- The per-line termination test of the `extract_section` end scan
(app.py lines 144-151): a stop keyword occurs in the stripped line, or the
stripped line is a short all-caps heading and we are at least two lines past
the start. -/
def lineTrigger (stops : List (List Char)) (i j : Nat) (l : List Char) : Bool :=
  let s := stripChars l
  kwMatch stops s || (decide (s.length < 50) && pyIsUpper s && decide (i + 1 < j))

/-- The end-index scan of `extract_section` (app.py lines 142-151), walking
the lines after the start index. -/
def findEndAux (stops : List (List Char)) (i : Nat) : Nat → List (List Char) → Nat
  | j, [] => j
  | j, l :: rest => if lineTrigger stops i j l then j else findEndAux stops i (j + 1) rest

/-- `idx_end` of `extract_section`: first triggering line after the start,
or the number of lines when none triggers. -/
def findEnd (lines : List (List Char)) (stops : List (List Char)) (i : Nat) : Nat :=
  findEndAux stops i (i + 1) (lines.drop (i + 1))

/-- `extract_section` of app.py (lines 126-153) on an already-split line
list: locate the first keyword line, scan for the end, join the slice
`lines[idx_start:idx_end]` with newlines and strip it. -/
def extract_section_lines (lines kws stops : List (List Char)) : List Char :=
  match startIndex lines kws with
  | none => []
  | some i => stripChars (joinNL ((lines.drop i).take (findEnd lines stops i - i)))

/-- `extract_section(text, keywords, stop_keywords)` of app.py lines 126-153. -/
def extract_section (text : List Char) (kws stops : List (List Char)) : List Char :=
  extract_section_lines (pySplitlines text) kws stops

/-
`extract_overflights` (app.py lines 191-202) runs
`re.finditer(r"(\d{2}[:]?00)\s*[–\-]\s*(\d{2}[:]?00)\s+(\d+)", text)` and maps
each match to a row.  The pattern is deterministic (its quantifiers range over
character classes disjoint from what follows them), so a direct scanner embeds
the regex semantics: leftmost, non-overlapping matches, greedy runs.
-/

/-- Parse `\d{2}[:]?00` at the head of the input, returning the matched
characters and the remainder. -/
def parseTimeTok (l : List Char) : Option (List Char × List Char) :=
  match l with
  | d1 :: d2 :: rest =>
    if d1.isDigit && d2.isDigit then
      match rest with
      | ':' :: '0' :: '0' :: r => some ([d1, d2, ':', '0', '0'], r)
      | '0' :: '0' :: r => some ([d1, d2, '0', '0'], r)
      | _ => none
    else none
  | _ => none

/-- One overflight match: start code, end code, value digits. -/
def OvMatch : Type := List Char × List Char × List Char

/-- Try the full overflight pattern anchored at the head of the input:
time, `\s*`, a dash (en dash or hyphen), `\s*`, time, `\s+`, digits.
Returns the match groups and the remainder after the match. -/
def parseOverflightAt (l : List Char) : Option (OvMatch × List Char) :=
  match parseTimeTok l with
  | none => none
  | some (g1, r1) =>
    match r1.dropWhile pyIsSpace with
    | [] => none
    | c :: r3 =>
      if c = '–' || c = '-' then
        match parseTimeTok (r3.dropWhile pyIsSpace) with
        | none => none
        | some (g2, r5) =>
          if (r5.takeWhile pyIsSpace).isEmpty then none
          else if ((r5.dropWhile pyIsSpace).takeWhile Char.isDigit).isEmpty then none
          else some ((g1, g2, (r5.dropWhile pyIsSpace).takeWhile Char.isDigit),
            (r5.dropWhile pyIsSpace).drop
              ((r5.dropWhile pyIsSpace).takeWhile Char.isDigit).length)
      else none

/-- `re.finditer` for the overflight pattern: scan left to right, emit each
match with its start position, resume after the consumed text.  The fuel is
the text length, which bounds the number of scan steps since every step
consumes at least one character. -/
def finditerGo : Nat → Nat → List Char → List (Nat × OvMatch)
  | 0, _, _ => []
  | fuel + 1, pos, l =>
    match parseOverflightAt l with
    | some (m, rest) => (pos, m) :: finditerGo fuel (pos + (l.length - rest.length)) rest
    | none =>
      match l with
      | [] => []
      | _ :: t => finditerGo fuel (pos + 1) t

/-- All overflight-pattern matches of a text, with their start positions. -/
def overflightMatches (text : List Char) : List (Nat × OvMatch) :=
  finditerGo text.length 0 text

/-- Row construction of app.py line 201: strip colons from each time code
and format the period as `f"{s[:2]}00–{e[:2]}00"` with the parsed value. -/
def rowOfMatch (m : OvMatch) : List Char × Nat :=
  let s := m.1.filter (fun c => c ≠ ':')
  let e := m.2.1.filter (fun c => c ≠ ':')
  (s.take 2 ++ ("00–".data) ++ e.take 2 ++ ("00".data), natOfDigits m.2.2)

/-- `extract_overflights(text)` of app.py lines 191-202: one row per regex
match, in match order. -/
def extract_overflights (text : List Char) : List (List Char × Nat) :=
  (overflightMatches text).map (fun pm => rowOfMatch pm.2)

/-- Numeric value of the 4-digit start code of a row's period string
(the spec's sort key for the series). -/
def rowStartVal (r : List Char × Nat) : Nat := natOfDigits (r.1.take 4)

/-- The spec's ordering property: rows ascend by the numeric start code. -/
def sortedByStart : List (List Char × Nat) → Bool
  | [] => true
  | [_] => true
  | a :: b :: t => decide (rowStartVal a ≤ rowStartVal b) && sortedByStart (b :: t)

/-- The spec's uniqueness property: no two rows share a period string. -/
def uniquePeriods (rows : List (List Char × Nat)) : Bool :=
  match rows with
  | [] => true
  | r :: t => t.all (fun s => !(decide (r.1 = s.1))) && uniquePeriods t

/-
`extract_route_weather` (app.py lines 204-236): a line scan with a current
route, switched by `re.search("tasmi.*kaban", l, IGNORECASE)` and
`re.search("modik.*sidad", l, IGNORECASE)`; window lines are matched by the
anchored `re.match(r"(\d{2}\s*-\s*\d{2}Z)\s*:\s*(.+)", l)`.
-/

/-- Remainder of the haystack after the first occurrence of `needle`,
or `none` when `needle` does not occur. -/
def dropAfterFirst (needle : List Char) : List Char → Option (List Char)
  | [] => if needle.isEmpty then some [] else none
  | c :: rest =>
    if needle.isPrefixOf (c :: rest) then some ((c :: rest).drop needle.length)
    else dropAfterFirst needle rest

/-- Existence of a match for `a.*b` with `re.IGNORECASE`: an occurrence of
`a` followed, disjointly, by an occurrence of `b` (both case-folded).  If any
occurrence of `a` works then the first one does, so searching after the first
occurrence is equivalent. -/
def searchThen (a b l : List Char) : Bool :=
  match dropAfterFirst (lowerStr a) (lowerStr l) with
  | some rest => isSubList (lowerStr b) rest
  | none => false

/-- The anchored window-line pattern `(\d{2}\s*-\s*\d{2}Z)\s*:\s*(.+)` of
app.py line 217, applied with `re.match`.  Group 1 is returned with spaces
removed (`.replace(" ", "")`); group 2 is the rest of the line, where the
trailing `\s*` backtracks to leave one character when everything after the
colon is whitespace. -/
def parseWindowLine (l : List Char) : Option (List Char × List Char) :=
  match l with
  | d1 :: d2 :: r1 =>
    if d1.isDigit && d2.isDigit then
      match r1.dropWhile pyIsSpace with
      | '-' :: r3 =>
        match r3.dropWhile pyIsSpace with
        | e1 :: e2 :: 'Z' :: r5 =>
          if e1.isDigit && e2.isDigit then
            match r5.dropWhile pyIsSpace with
            | ':' :: r7 =>
              if r7.isEmpty then none
              else
                let r8 := r7.dropWhile pyIsSpace
                let body := if r8.isEmpty then r7.drop (r7.length - 1) else r8
                let g1 := [d1, d2] ++ r1.takeWhile pyIsSpace ++ ['-']
                  ++ r3.takeWhile pyIsSpace ++ [e1, e2, 'Z']
                some (g1.filter (fun c => c ≠ ' '), body)
            | _ => none
          else none
        | _ => none
      | _ => none
    else none
  | _ => none

/-- The scan loop of `extract_route_weather` (app.py lines 207-219); the
state is the current route (`none`, Tasmi = `true`, MODIK = `false`), and
the result is the pair of collected (window, summary) lists. -/
def rwGo : List (List Char) → Option Bool →
    List (List Char × List Char) × List (List Char × List Char)
  | [], _ => ([], [])
  | ln :: rest, cur =>
    let l := stripChars ln
    if searchThen ("tasmi".data) ("kaban".data) l then rwGo rest (some true)
    else if searchThen ("modik".data) ("sidad".data) l then rwGo rest (some false)
    else
      match cur with
      | none => rwGo rest none
      | some r =>
        match parseWindowLine l with
        | some p =>
          let t := rwGo rest (some r)
          if r then (p :: t.1, t.2) else (t.1, p :: t.2)
        | none => rwGo rest (some r)

/-- Hardcoded Tasmi→Kaban fallback windows (app.py lines 222-228). -/
def tasmiDefaults : List (List Char × List Char) :=
  [(("00-06Z".data), ("Light CAT FL200–280, W 20–25 kt".data)),
   (("06-12Z".data), ("Isolated CB near route; icing above FL240".data)),
   (("12-18Z".data), ("Nil SIGWX".data)),
   (("18-24Z".data), ("Moderate headwind 25–30 kt".data))]

/-- Hardcoded MODIK→SIDAD fallback windows (app.py lines 229-235). -/
def modikDefaults : List (List Char × List Char) :=
  [(("00-06Z".data), ("Mountain wave NW, light chop".data)),
   (("06-12Z".data), ("Good VIS, nil SIGWX".data)),
   (("12-18Z".data), ("Convective build-ups SE of route".data)),
   (("18-24Z".data), ("Crosswind shear FL180–220".data))]

/-- `extract_route_weather(text)` of app.py lines 204-236: the scanned
windows for (Tasmi→Kaban, MODIK→SIDAD), with each empty list replaced by
the hardcoded defaults. -/
def extract_route_weather (text : List Char) :
    List (List Char × List Char) × List (List Char × List Char) :=
  (if (rwGo (pySplitlines text) none).1.isEmpty then tasmiDefaults
   else (rwGo (pySplitlines text) none).1,
   if (rwGo (pySplitlines text) none).2.isEmpty then modikDefaults
   else (rwGo (pySplitlines text) none).2)

/-
`extract_airport_traffic` (app.py lines 165-189).  The regex's first group is
the alternation `(ORBI|ORNI|ORER|ORBS)` (case-insensitive, then upper-cased
by the code), and the count groups `(\d+)?` are optional, so a match is a
code from that four-element set and two optional digit strings.  The match
list is kept abstract; the row construction (lines 178-185) and the
`groupby("Airport", as_index=False).sum()` aggregation (line 189, which sorts
by the group key and sums the numeric columns) are embedded below.
-/

/-- The four airport codes the traffic regex can capture. -/
inductive Airport
  | ORBI
  | ORNI
  | ORER
  | ORBS
deriving DecidableEq

/-- One regex match of the traffic pattern: the captured code and the
optional arrival / departure digit groups. -/
structure APMatch where
  icao : Airport
  arr : Option (List Char)
  dep : Option (List Char)

/-- `int(raw) if raw and raw.isdigit() else 0` of app.py lines 183-184. -/
def toCount : Option (List Char) → Nat
  | some d => if pyIsDigits d then natOfDigits d else 0
  | none => 0

/-- The row list built by app.py lines 178-185: one row per match. -/
def airportRows (ms : List APMatch) : List (Airport × Nat × Nat) :=
  ms.map (fun m => (m.icao, toCount m.arr, toCount m.dep))

/-- The alphabetical order pandas `groupby` sorts the keys into:
ORBI < ORBS < ORER < ORNI. -/
def sortedAirports : List Airport :=
  [Airport.ORBI, Airport.ORBS, Airport.ORER, Airport.ORNI]

/-- `extract_airport_traffic` after the regex stage (app.py lines 178-189):
empty input gives an empty frame, otherwise one row per airport present,
sorted by code, with arrivals and departures summed. -/
def extract_airport_traffic (ms : List APMatch) : List (Airport × Nat × Nat) :=
  if (airportRows ms).isEmpty then []
  else
    sortedAirports.filterMap (fun a =>
      if ((airportRows ms).filter (fun r => decide (r.1 = a))).isEmpty then none
      else some (a,
        (((airportRows ms).filter (fun r => decide (r.1 = a))).map (fun r => r.2.1)).sum,
        (((airportRows ms).filter (fun r => decide (r.1 = a))).map (fun r => r.2.2)).sum))

/-
Capacity window calculator.  src/app.py has no per-hour capacity logic (its
capacity section, lines 323-329, uses the static `SECTOR_CAP` values), so the
calculator is modelled from spec section 4.5.
-/

/-- Modelled from the spec: the overlap test of section 4.5, absent from
src/app.py.  For a normal window (`start ≤ end`) overlap holds iff
NOT (`end ≤ hourStart` OR `start ≥ hourEnd`); for a wrapping window
(`start > end`) overlap holds iff NOT (`hourEnd ≤ start` AND
`hourStart ≥ end`).  Times are minutes since midnight. -/
def overlaps (ws we hs he : Nat) : Bool :=
  if ws ≤ we then decide (¬ (we ≤ hs ∨ ws ≥ he))
  else decide (¬ (he ≤ ws ∧ hs ≥ we))

/-- Modelled from the spec: effective capacity per sector per hour is
`base × 2` when any window overlaps the hour bucket, else `base × 1`. -/
def effectiveCapacity (base : Nat) (wins : List (Nat × Nat)) (h : Nat) : Nat :=
  if wins.any (fun w => overlaps w.1 w.2 (h * 60) (h * 60 + 60)) then base * 2
  else base * 1

/-- Windows configured for one sector. -/
def sectorWindows (windows : List (String × Nat × Nat)) (s : String) : List (Nat × Nat) :=
  windows.filterMap (fun w => if w.1 = s then some w.2 else none)

/-- Modelled from the spec: `buildHourlyCapacity` of section 4.5, absent from
src/app.py — for each hour 0..23, the per-sector effective capacities and
their combined total. -/
def buildHourlyCapacity (bases : List (String × Nat)) (windows : List (String × Nat × Nat)) :
    List (Nat × List (String × Nat) × Nat) :=
  (List.range 24).map (fun h =>
    let per := bases.map (fun sb => (sb.1, effectiveCapacity sb.2 (sectorWindows windows sb.1) h))
    (h, per, (per.map (fun p => p.2)).sum))

/-- The claim's reading of "window overlaps the hour bucket": membership of a
minute in the window's minute set, a wrapping window being the union of
`[start, 1440)` and `[0, end)`. -/
def specInWindow (ws we t : Nat) : Bool :=
  if ws ≤ we then decide (ws ≤ t ∧ t < we)
  else decide ((ws ≤ t ∧ t < 1440) ∨ t < we)

/-- Some minute of the hour bucket `[h*60, h*60+60)` lies in the window. -/
def specHourOverlap (ws we h : Nat) : Bool :=
  (List.range 60).any (fun k => specInWindow ws we (h * 60 + k))

/-
Helper lemmas.
-/

theorem lengthDropWhileLe (p : Char → Bool) (l : List Char) :
    (l.dropWhile p).length ≤ l.length := by
  induction l with
  | nil => simp [List.dropWhile]
  | cons c t ih =>
    simp only [List.dropWhile, List.length_cons]
    split
    · omega
    · simp

theorem startIndexAux_eq_none (kws : List (List Char)) (lines : List (List Char)) (j : Nat)
    (h : ∀ l ∈ lines, kwMatch kws l = false) : startIndexAux kws lines j = none := by
  induction lines generalizing j with
  | nil => rfl
  | cons l t ih =>
    simp only [startIndexAux, h l (List.mem_cons_self l t)]
    simp only [Bool.false_eq_true, if_false]
    exact ih (j + 1) (fun x hx => h x (List.mem_cons_of_mem l hx))

/-- C6: for every document none of whose lines contains any of the start
keywords (case-insensitively), `extract_section` returns the empty string;
it is a total function, so absence of the heading is a representable result,
never an exception. -/
theorem extract_section_missing_heading_empty (text : List Char) (kws stops : List (List Char))
    (habs : ∀ ln ∈ pySplitlines text, kwMatch kws ln = false) :
    extract_section text kws stops = [] := by
  unfold extract_section extract_section_lines startIndex
  rw [startIndexAux_eq_none kws _ 0 habs]

theorem extract_section_missing_heading_empty_witness :
    (∀ ln ∈ pySplitlines ("hello\nworld".data),
      kwMatch [("Airspace Information".data)] ln = false)
    ∧ extract_section ("hello\nworld".data) [("Airspace Information".data)] [] = [] :=
  ⟨by decide, extract_section_missing_heading_empty _ _ _ (by decide)⟩

/-- C5: the hourly-series extractor accepts the two-line layout — a period
line followed (possibly after blank lines) by a digits line — and returns
the two points of the synthetic document in order. -/
theorem overflights_two_line_layout :
    extract_overflights ("0000–0100\n73\n0100–0200\n64".data)
      = [(("0000–0100".data), 73), (("0100–0200".data), 64)]
    ∧ extract_overflights ("0000–0100\n\n73\n0100–0200\n\n64".data)
      = [(("0000–0100".data), 73), (("0100–0200".data), 64)] :=
  ⟨by decide, by decide⟩

/-- C2 counterexample: a body line that merely contains the heading words
(and is not equal to them) does open the block — no line of the document
equals the heading, yet extraction returns a nonempty block starting at
that body line. -/
theorem heading_substring_opens_block :
    (∀ ln ∈ pySplitlines ("note about Airspace Information today\nmore text".data),
      ln ≠ ("Airspace Information".data))
    ∧ extract_section ("note about Airspace Information today\nmore text".data)
        [("Airspace Information".data)] []
      = ("note about Airspace Information today\nmore text".data) :=
  ⟨by decide, by decide⟩

/-- C3 counterexample: on the spec's own scenario the extracted block
contains the start-heading line, so it is not equal to just the three
content lines. -/
theorem section_heading_not_excluded :
    extract_section ("Airspace:\naaa\nbbb\nccc\nAirports:".data)
        [("Airspace:".data)] [("Airports:".data)]
      = ("Airspace:\naaa\nbbb\nccc".data)
    ∧ ("Airspace:\naaa\nbbb\nccc".data) ≠ ("aaa\nbbb\nccc".data) :=
  ⟨by decide, by decide⟩

/-- C4 counterexample: with the periods reversed in the document the output
keeps the document order, so it is not sorted by the numeric start code. -/
theorem overflights_not_sorted_by_start :
    extract_overflights ("0100–0200 64\n0000–0100 73".data)
      = [(("0100–0200".data), 64), (("0000–0100".data), 73)]
    ∧ sortedByStart (extract_overflights ("0100–0200 64\n0000–0100 73".data)) = false :=
  ⟨by decide, by decide⟩

/-- C7 counterexample: a duplicated period yields two output points with the
same period string — later occurrences do not overwrite earlier ones. -/
theorem overflights_duplicate_periods :
    extract_overflights ("0000–0100 73\n0000–0100 80".data)
      = [(("0000–0100".data), 73), (("0000–0100".data), 80)]
    ∧ uniquePeriods (extract_overflights ("0000–0100 73\n0000–0100 80".data)) = false :=
  ⟨by decide, by decide⟩

/-- C7 amended: every regex match contributes its own point — the extractor
never merges or drops matches, so duplicated periods appear as duplicated
points. -/
theorem overflights_one_point_per_match (text : List Char) :
    (extract_overflights text).length = (overflightMatches text).length := by
  simp [extract_overflights]

/-- C8: the route-weather extractor never returns an empty window list —
whenever the scan finds no window lines for a route, the fixed four-entry
default list is substituted for that route. -/
theorem route_weather_fallback_defaults (text : List Char) :
    ((extract_route_weather text).1 ≠ [] ∧ (extract_route_weather text).2 ≠ [])
    ∧ ((rwGo (pySplitlines text) none).1 = [] →
        (extract_route_weather text).1 = tasmiDefaults)
    ∧ ((rwGo (pySplitlines text) none).2 = [] →
        (extract_route_weather text).2 = modikDefaults)
    ∧ tasmiDefaults.length = 4 ∧ modikDefaults.length = 4 := by
  unfold extract_route_weather
  cases h1 : (rwGo (pySplitlines text) none).1 <;>
    cases h2 : (rwGo (pySplitlines text) none).2 <;>
      simp [h1, h2, tasmiDefaults, modikDefaults]

theorem route_weather_fallback_defaults_witness :
    (extract_route_weather []).1 = tasmiDefaults
    ∧ (extract_route_weather []).2 = modikDefaults :=
  ⟨(route_weather_fallback_defaults []).2.1 (by decide),
   (route_weather_fallback_defaults []).2.2.1 (by decide)⟩

theorem startIndexAux_some_iff (kws : List (List Char)) :
    ∀ (lines : List (List Char)) (j i : Nat),
    startIndexAux kws lines j = some i ↔
      (j ≤ i ∧ i - j < lines.length
        ∧ kwMatch kws (lines.getD (i - j) []) = true
        ∧ ∀ m, m < i - j → kwMatch kws (lines.getD m []) = false) := by
  intro lines
  induction lines with
  | nil => intro j i; simp [startIndexAux]
  | cons l t ih =>
    intro j i
    simp only [startIndexAux]
    by_cases hl : kwMatch kws l = true
    · simp only [hl, if_true]
      constructor
      · intro h
        have hij : i = j := by
          have := Option.some.inj h
          omega
        subst hij
        refine ⟨Nat.le_refl i, by simp, ?_, ?_⟩
        · simpa [Nat.sub_self] using hl
        · intro m hm
          omega
      · rintro ⟨hji, _, _, hmin⟩
        rcases Nat.eq_or_lt_of_le hji with heq | hlt
        · simp [heq]
        · exfalso
          have h0 := hmin 0 (by omega)
          simp only [List.getD] at h0
          simp [hl] at h0
    · simp only [hl, Bool.false_eq_true, if_false]
      rw [ih (j + 1) i]
      constructor
      · rintro ⟨hji, hlen, hkw, hmin⟩
        have hij : j < i := by omega
        refine ⟨by omega, by simp; omega, ?_, ?_⟩
        · have : i - j = (i - (j + 1)) + 1 := by omega
          rw [this]
          simpa using hkw
        · intro m hm
          match m with
          | 0 =>
            simp only [List.getD]
            simpa using (Bool.eq_false_iff.mpr hl)
          | Nat.succ m' =>
            have : m' < i - (j + 1) := by omega
            have := hmin m' this
            simpa using this
      · rintro ⟨hji, hlen, hkw, hmin⟩
        have hij : j < i := by
          rcases Nat.eq_or_lt_of_le hji with heq | hlt
          · exfalso
            rw [heq] at hkw
            simp only [Nat.sub_self, List.getD_cons_zero] at hkw
            simp [hkw] at hl
          · exact hlt
        refine ⟨by omega, by simp at hlen; omega, ?_, ?_⟩
        · have : i - j = (i - (j + 1)) + 1 := by omega
          rw [this] at hkw
          simpa using hkw
        · intro m hm
          have : m + 1 < i - j := by omega
          have := hmin (m + 1) this
          simpa using this

/-- C2 amended: heading recognition in `extract_section` is case-insensitive
substring containment, not exact line equality — the start index is the first
line that contains any keyword, so a body line merely containing the heading
word does open (or, symmetrically for stop keywords, truncate) a block. -/
theorem heading_recognition_by_containment (lines kws : List (List Char)) (i : Nat) :
    startIndex lines kws = some i ↔
      (i < lines.length ∧ kwMatch kws (lines.getD i []) = true
        ∧ ∀ m, m < i → kwMatch kws (lines.getD m []) = false) := by
  unfold startIndex
  rw [startIndexAux_some_iff kws lines 0 i]
  simp

theorem lineTrigger_false_of (stops : List (List Char)) (l : List Char) (i : Nat)
    (h1 : kwMatch stops (stripChars l) = false)
    (h2 : (decide ((stripChars l).length < 50) && pyIsUpper (stripChars l)) = false) :
    ∀ j, lineTrigger stops i j l = false := by
  intro j
  unfold lineTrigger
  simp only [h1, Bool.false_or, Bool.and_eq_false_iff] at h2 ⊢
  rcases h2 with h2 | h2
  · exact Or.inl (Or.inl h2)
  · exact Or.inl (Or.inr h2)

theorem startIndexAux_append_first (kws : List (List Char)) (pre : List (List Char))
    (hdr : List Char) (rest : List (List Char)) (j : Nat)
    (hpre : ∀ l ∈ pre, kwMatch kws l = false) (hhdr : kwMatch kws hdr = true) :
    startIndexAux kws (pre ++ hdr :: rest) j = some (j + pre.length) := by
  induction pre generalizing j with
  | nil => simp [startIndexAux, hhdr]
  | cons p t ih =>
    have hp := hpre p (List.mem_cons_self p t)
    simp only [List.cons_append, startIndexAux, hp, Bool.false_eq_true, if_false,
      List.append_eq]
    rw [ih (j + 1) (fun x hx => hpre x (List.mem_cons_of_mem p hx))]
    simp only [List.length_cons]
    congr 1
    omega

theorem findEndAux_first_trigger (stops : List (List Char)) (i : Nat)
    (mid : List (List Char)) (cap : List Char) (post : List (List Char)) (j : Nat)
    (hmid : ∀ l ∈ mid, ∀ k, lineTrigger stops i k l = false)
    (hcap : lineTrigger stops i (j + mid.length) cap = true) :
    findEndAux stops i j (mid ++ cap :: post) = j + mid.length := by
  induction mid generalizing j with
  | nil =>
    simp only [List.length_nil, Nat.add_zero] at hcap
    simp [findEndAux, hcap]
  | cons m t ih =>
    simp only [List.cons_append, findEndAux, hmid m (List.mem_cons_self m t) j,
      Bool.false_eq_true, if_false, List.append_eq]
    have hcap2 : lineTrigger stops i ((j + 1) + t.length) cap = true := by
      have : (j + 1) + t.length = j + (m :: t).length := by simp; omega
      rw [this]
      exact hcap
    rw [ih (j + 1) (fun x hx k => hmid x (List.mem_cons_of_mem m hx) k) hcap2]
    simp only [List.length_cons]
    omega

theorem drop_append_cons (pre : List (List Char)) (x : List Char) (rest : List (List Char)) :
    (pre ++ x :: rest).drop (pre.length + 1) = rest := by
  have h : pre ++ x :: rest = (pre ++ [x]) ++ rest := by simp
  have hlen : (pre ++ [x]).length = pre.length + 1 := by simp
  rw [h, ← hlen, List.drop_left]

/-- The block slice produced by `extract_section` for a document of the form
`pre ++ hdr :: mid ++ cap :: post` where the heading scan first fires on
`hdr` and the end scan first fires on `cap`. -/
theorem extract_section_lines_slice (pre mid post : List (List Char))
    (hdr cap : List Char) (kws stops : List (List Char))
    (hpre : ∀ l ∈ pre, kwMatch kws l = false)
    (hhdr : kwMatch kws hdr = true)
    (hmid : ∀ l ∈ mid, ∀ k, lineTrigger stops (pre.length) k l = false)
    (hcap : lineTrigger stops (pre.length) (pre.length + 1 + mid.length) cap = true) :
    extract_section_lines (pre ++ hdr :: (mid ++ cap :: post)) kws stops
      = stripChars (joinNL (hdr :: mid)) := by
  unfold extract_section_lines startIndex
  rw [startIndexAux_append_first kws pre hdr (mid ++ cap :: post) 0 hpre hhdr]
  simp only [Nat.zero_add]
  unfold findEnd
  rw [drop_append_cons pre hdr (mid ++ cap :: post)]
  have hcap2 : lineTrigger stops (pre.length) ((pre.length + 1) + mid.length) cap = true := hcap
  rw [findEndAux_first_trigger stops pre.length mid cap post (pre.length + 1) hmid hcap2]
  have hd : List.drop pre.length (pre ++ hdr :: (mid ++ cap :: post))
      = hdr :: (mid ++ cap :: post) :=
    List.drop_left pre (hdr :: (mid ++ cap :: post))
  rw [hd]
  have ht : (pre.length + 1 + mid.length) - pre.length = mid.length + 1 := by omega
  rw [ht]
  simp only [List.take_succ_cons]
  rw [List.take_left mid (cap :: post)]

/-- C10: the end scan of `extract_section` fires on any stripped line shorter
than 50 characters that Python's `isupper` accepts, as long as it is at least
two lines past the start line, even when no stop keyword occurs in it — the
block is truncated just before that all-caps line. -/
theorem extract_section_allcaps_truncation (pre mid post : List (List Char))
    (hdr cap : List Char) (kws stops : List (List Char))
    (hpre : ∀ l ∈ pre, kwMatch kws l = false)
    (hhdr : kwMatch kws hdr = true)
    (hmid : ∀ l ∈ mid, kwMatch stops (stripChars l) = false
        ∧ (decide ((stripChars l).length < 50) && pyIsUpper (stripChars l)) = false)
    (hmidne : mid ≠ [])
    (hcapstop : kwMatch stops (stripChars cap) = false)
    (hcaplen : (stripChars cap).length < 50)
    (hcapup : pyIsUpper (stripChars cap) = true) :
    extract_section_lines (pre ++ hdr :: (mid ++ cap :: post)) kws stops
      = stripChars (joinNL (hdr :: mid)) := by
  apply extract_section_lines_slice pre mid post hdr cap kws stops hpre hhdr
  · intro l hl k
    exact lineTrigger_false_of stops l pre.length (hmid l hl).1 (hmid l hl).2 k
  · unfold lineTrigger
    simp only [hcapstop, Bool.false_or]
    have hmlen : 0 < mid.length := List.length_pos.mpr hmidne
    have hj : pre.length + 1 < pre.length + 1 + mid.length := by omega
    simp [hcaplen, hcapup, hj]

theorem extract_section_allcaps_truncation_witness :
    pyIsUpper (stripChars ("ALL CAPS".data)) = true
    ∧ extract_section_lines
        [("Heading one".data), ("body text".data), ("ALL CAPS".data), ("tail".data)]
        [("Heading".data)] [("Stopword".data)]
      = stripChars (joinNL [("Heading one".data), ("body text".data)]) :=
  ⟨by decide,
   extract_section_allcaps_truncation [] [("body text".data)] [("tail".data)]
     ("Heading one".data) ("ALL CAPS".data) [("Heading".data)] [("Stopword".data)]
     (by decide) (by decide) (by decide) (by decide) (by decide) (by decide) (by decide)⟩

/-- C3 amended: for a document of heading, three content lines and an end
heading, `extract_section` returns the start-heading line followed by the
three content lines (the start heading is included, the end heading is
excluded), stripped of surrounding whitespace. -/
theorem section_includes_heading_line (a b c : List Char)
    (hmid : ∀ l ∈ [a, b, c], kwMatch [("Airports:".data)] (stripChars l) = false
        ∧ (decide ((stripChars l).length < 50) && pyIsUpper (stripChars l)) = false) :
    extract_section_lines [("Airspace:".data), a, b, c, ("Airports:".data)]
        [("Airspace:".data)] [("Airports:".data)]
      = stripChars (joinNL [("Airspace:".data), a, b, c]) := by
  have h := extract_section_lines_slice [] [a, b, c] [] ("Airspace:".data)
    ("Airports:".data) [("Airspace:".data)] [("Airports:".data)]
    (by intro l hl; simp at hl) (by decide)
    (by
      intro l hl k
      exact lineTrigger_false_of _ l _ (hmid l hl).1 (hmid l hl).2 k)
    (by
      unfold lineTrigger
      have : kwMatch [("Airports:".data)] (stripChars ("Airports:".data)) = true := by decide
      simp [this])
  simpa using h

theorem section_includes_heading_line_witness :
    extract_section_lines
        [("Airspace:".data), ("aaa".data), ("bbb".data), ("ccc".data), ("Airports:".data)]
        [("Airspace:".data)] [("Airports:".data)]
      = stripChars (joinNL [("Airspace:".data), ("aaa".data), ("bbb".data), ("ccc".data)]) :=
  section_includes_heading_line ("aaa".data) ("bbb".data) ("ccc".data) (by decide)

theorem parseTimeTok_length (l g r : List Char) :
    parseTimeTok l = some (g, r) → r.length < l.length := by
  unfold parseTimeTok
  intro h
  split at h
  · split at h
    · split at h
      · simp only [Option.some.injEq, Prod.mk.injEq] at h
        obtain ⟨_, hr⟩ := h
        subst hr
        simp only [List.length_cons]
        omega
      · simp only [Option.some.injEq, Prod.mk.injEq] at h
        obtain ⟨_, hr⟩ := h
        subst hr
        simp only [List.length_cons]
        omega
      · exact Option.noConfusion h
    · exact Option.noConfusion h
  · exact Option.noConfusion h

theorem parseOverflightAt_length (l : List Char) (m : OvMatch) (rest : List Char) :
    parseOverflightAt l = some (m, rest) → rest.length < l.length := by
  unfold parseOverflightAt
  intro h
  split at h
  · exact Option.noConfusion h
  · rename_i g1 r1 heq1
    split at h
    · exact Option.noConfusion h
    · rename_i c r3 heq2
      split at h
      · split at h
        · exact Option.noConfusion h
        · rename_i g2 r5 heq3
          split at h
          · exact Option.noConfusion h
          · split at h
            · exact Option.noConfusion h
            · rename_i hds
              simp only [Option.some.injEq, Prod.mk.injEq] at h
              obtain ⟨_, hrest⟩ := h
              have hl1 : r1.length < l.length := parseTimeTok_length l g1 r1 heq1
              have hr3 : r3.length < r1.length := by
                have hle := lengthDropWhileLe pyIsSpace r1
                rw [heq2] at hle
                simp only [List.length_cons] at hle
                omega
              have hr5 : r5.length < (r3.dropWhile pyIsSpace).length :=
                parseTimeTok_length _ g2 r5 heq3
              have hr5b : r5.length < r3.length := by
                have := lengthDropWhileLe pyIsSpace r3
                omega
              have hr6 : (r5.dropWhile pyIsSpace).length ≤ r5.length :=
                lengthDropWhileLe pyIsSpace r5
              have hr6ne : (r5.dropWhile pyIsSpace) ≠ [] := by
                intro hnil
                rw [hnil] at hds
                simp at hds
              have hr6pos : 0 < (r5.dropWhile pyIsSpace).length :=
                List.length_pos.mpr hr6ne
              have hdslen : 0 < ((r5.dropWhile pyIsSpace).takeWhile Char.isDigit).length := by
                have hne : (r5.dropWhile pyIsSpace).takeWhile Char.isDigit ≠ [] := by
                  intro hnil
                  rw [hnil] at hds
                  simp at hds
                exact List.length_pos.mpr hne
              have hrlen : rest.length
                  = (r5.dropWhile pyIsSpace).length
                    - ((r5.dropWhile pyIsSpace).takeWhile Char.isDigit).length := by
                rw [← hrest]
                exact List.length_drop _ _
              omega
      · exact Option.noConfusion h

theorem finditerGo_succ (n pos : Nat) (l : List Char) :
    finditerGo (n + 1) pos l = match parseOverflightAt l with
      | some (m, rest) => (pos, m) :: finditerGo n (pos + (l.length - rest.length)) rest
      | none => match l with | [] => [] | _ :: t => finditerGo n (pos + 1) t := rfl

theorem finditerGo_succ_some (n pos : Nat) (l : List Char) (m : OvMatch) (rest : List Char)
    (hp : parseOverflightAt l = some (m, rest)) :
    finditerGo (n + 1) pos l = (pos, m) :: finditerGo n (pos + (l.length - rest.length)) rest := by
  rw [finditerGo_succ, hp]

theorem finditerGo_succ_none (n pos : Nat) (c : Char) (t : List Char)
    (hp : parseOverflightAt (c :: t) = none) :
    finditerGo (n + 1) pos (c :: t) = finditerGo n (pos + 1) t := by
  rw [finditerGo_succ, hp]

theorem finditerGo_pos (fuel : Nat) :
    ∀ (pos : Nat) (l : List Char),
      List.Chain' (fun p q => p < q) ((finditerGo fuel pos l).map Prod.fst)
      ∧ ∀ q ∈ (finditerGo fuel pos l).map Prod.fst, pos ≤ q := by
  induction fuel with
  | zero => intro pos l; simp [finditerGo]
  | succ n ih =>
    intro pos l
    cases hp : parseOverflightAt l with
    | some mr =>
      obtain ⟨m, rest⟩ := mr
      rw [finditerGo_succ_some n pos l m rest hp]
      have hcons : rest.length < l.length := parseOverflightAt_length l m rest hp
      obtain ⟨ihc, ihge⟩ := ih (pos + (l.length - rest.length)) rest
      constructor
      · simp only [List.map_cons]
        rw [List.chain'_cons']
        refine ⟨?_, ihc⟩
        intro y hy
        have hmem := List.mem_of_mem_head? hy
        have := ihge y hmem
        omega
      · intro q hq
        simp only [List.map_cons, List.mem_cons] at hq
        rcases hq with hq | hq
        · omega
        · have := ihge q hq
          omega
    | none =>
      cases l with
      | nil => simp [finditerGo, hp]
      | cons c t =>
        rw [finditerGo_succ_none n pos c t hp]
        obtain ⟨ihc, ihge⟩ := ih (pos + 1) t
        refine ⟨ihc, ?_⟩
        intro q hq
        have := ihge q hq
        omega

/-- C4 amended: the extractor emits one point per regex match, in the order
the matches occur in the document (match start positions strictly increase);
no sort by the numeric start code is applied. -/
theorem overflights_document_order (text : List Char) :
    extract_overflights text = (overflightMatches text).map (fun pm => rowOfMatch pm.2)
    ∧ List.Chain' (fun p q => p < q) ((overflightMatches text).map Prod.fst) :=
  ⟨rfl, (finditerGo_pos text.length 0 text).1⟩

theorem countP_filterMap_le_one {α : Type} {β : Type} [DecidableEq α] (g : β → α)
    (f : α → Option β) (l : List α) (hnd : l.Nodup)
    (hf : ∀ x y, f x = some y → g y = x) (a : α) :
    (l.filterMap f).countP (fun r => decide (g r = a)) ≤ 1 := by
  induction l with
  | nil => simp
  | cons x t ih =>
    have hx : x ∉ t := (List.nodup_cons.mp hnd).1
    have hnt : t.Nodup := (List.nodup_cons.mp hnd).2
    cases hfx : f x with
    | none => simpa [List.filterMap_cons, hfx] using ih hnt
    | some b =>
      have hgb : g b = x := hf x b hfx
      simp only [List.filterMap_cons, hfx, List.countP_cons]
      by_cases hba : g b = a
      · have hxa : x = a := by rw [← hgb, hba]
        have hzero : (t.filterMap f).countP (fun r => decide (g r = a)) = 0 := by
          rw [List.countP_eq_zero]
          intro r hr
          obtain ⟨y, hy, hfy⟩ := List.mem_filterMap.mp hr
          have : g r = y := hf y r hfy
          simp only [decide_eq_true_eq, this]
          intro hya
          rw [← hxa] at hya
          rw [hya] at hy
          exact hx hy
        simp [hzero, hba]
      · have := ih hnt
        simp [hba]
        omega

theorem filter_airportRows (ms : List APMatch) (a : Airport) :
    (airportRows ms).filter (fun r => decide (r.1 = a))
      = (ms.filter (fun m => decide (m.icao = a))).map
          (fun m => (a, toCount m.arr, toCount m.dep)) := by
  induction ms with
  | nil => rfl
  | cons m t ih =>
    simp only [airportRows, List.map_cons, List.filter_cons] at ih ⊢
    by_cases hm : m.icao = a
    · simp [hm, ih]
    · simp [hm, ih]

theorem mem_sortedAirports (a : Airport) : a ∈ sortedAirports := by
  cases a <;> simp [sortedAirports]

/-- C9: the airport-traffic aggregation produces at most one row per airport
code; when some match exists for a code, the output contains that code's row
whose arrivals and departures are the sums over all its matches, where a
missing or non-digit group counts as 0 (the match still contributes a row:
the row list has exactly one row per match). -/
theorem airport_traffic_grouped_sums (ms : List APMatch) (a : Airport) :
    ((extract_airport_traffic ms).countP (fun r => decide (r.1 = a)) ≤ 1)
    ∧ ((∃ m ∈ ms, m.icao = a) →
        (a, ((ms.filter (fun m => decide (m.icao = a))).map (fun m => toCount m.arr)).sum,
            ((ms.filter (fun m => decide (m.icao = a))).map (fun m => toCount m.dep)).sum)
          ∈ extract_airport_traffic ms)
    ∧ (airportRows ms).length = ms.length := by
  refine ⟨?_, ?_, by simp [airportRows]⟩
  · unfold extract_airport_traffic
    split
    · simp
    · apply countP_filterMap_le_one (fun r => (r : Airport × Nat × Nat).1) _ sortedAirports
        (by decide) ?hf a
      case hf =>
        intro x y h
        simp only at h
        split at h
        · exact Option.noConfusion h
        · have := Option.some.inj h
          rw [← this]
  · rintro ⟨m, hm, hma⟩
    unfold extract_airport_traffic
    have hrows : ¬ (airportRows ms).isEmpty = true := by
      cases hms : ms with
      | nil => rw [hms] at hm; exact absurd hm (List.not_mem_nil m)
      | cons x t => simp [airportRows]
    rw [if_neg hrows]
    apply List.mem_filterMap.mpr
    refine ⟨a, mem_sortedAirports a, ?_⟩
    have hgrp : (airportRows ms).filter (fun r => decide (r.1 = a))
        = (ms.filter (fun m => decide (m.icao = a))).map
            (fun m => (a, toCount m.arr, toCount m.dep)) := filter_airportRows ms a
    have hne : ¬ ((airportRows ms).filter (fun r => decide (r.1 = a))).isEmpty = true := by
      rw [hgrp]
      have hmem : m ∈ ms.filter (fun m => decide (m.icao = a)) :=
        List.mem_filter.mpr ⟨hm, by simp [hma]⟩
      cases hflt : ms.filter (fun m => decide (m.icao = a)) with
      | nil => rw [hflt] at hmem; exact absurd hmem (List.not_mem_nil m)
      | cons y t => simp
    rw [if_neg hne, hgrp, List.map_map, List.map_map]
    rfl

theorem airport_traffic_grouped_sums_witness :
    (Airport.ORBI, 45, 57) ∈ extract_airport_traffic
      [⟨Airport.ORBI, some ("45".data), some ("50".data)⟩,
       ⟨Airport.ORBI, none, some ("7".data)⟩] := by
  have h := (airport_traffic_grouped_sums
    [⟨Airport.ORBI, some ("45".data), some ("50".data)⟩,
     ⟨Airport.ORBI, none, some ("7".data)⟩] Airport.ORBI).2.1
    ⟨⟨Airport.ORBI, some ("45".data), some ("50".data)⟩, by simp, rfl⟩
  have heval : (Airport.ORBI,
      ((([⟨Airport.ORBI, some ("45".data), some ("50".data)⟩,
          ⟨Airport.ORBI, none, some ("7".data)⟩] : List APMatch).filter
            (fun m => decide (m.icao = Airport.ORBI))).map (fun m => toCount m.arr)).sum,
      ((([⟨Airport.ORBI, some ("45".data), some ("50".data)⟩,
          ⟨Airport.ORBI, none, some ("7".data)⟩] : List APMatch).filter
            (fun m => decide (m.icao = Airport.ORBI))).map (fun m => toCount m.dep)).sum)
      = (Airport.ORBI, 45, 57) := by decide
  rw [heval] at h
  exact h

theorem overlaps_eq_specHourOverlap (ws we h : Nat) (hh : h < 24) (hne : ws ≠ we) :
    overlaps ws we (h * 60) (h * 60 + 60) = specHourOverlap ws we h := by
  rw [Bool.eq_iff_iff]
  by_cases hle : ws ≤ we
  · have hlt : ws < we := Nat.lt_of_le_of_ne hle hne
    simp only [overlaps, specHourOverlap, specInWindow, if_pos hle, List.any_eq_true,
      List.mem_range, decide_eq_true_eq]
    constructor
    · intro hov
      push_neg at hov
      obtain ⟨h1, h2⟩ := hov
      by_cases hcase : ws ≤ h * 60
      · exact ⟨0, by omega, by omega, by omega⟩
      · exact ⟨ws - h * 60, by omega, by omega, by omega⟩
    · rintro ⟨k, hk, h1, h2⟩
      omega
  · simp only [overlaps, specHourOverlap, specInWindow, if_neg hle, List.any_eq_true,
      List.mem_range, decide_eq_true_eq]
    constructor
    · intro hov
      have hcases : ws < h * 60 + 60 ∨ h * 60 < we := by omega
      rcases hcases with hcase | hcase
      · by_cases hws : ws ≤ h * 60
        · exact ⟨0, by omega, Or.inl ⟨by omega, by omega⟩⟩
        · exact ⟨ws - h * 60, by omega, Or.inl ⟨by omega, by omega⟩⟩
      · exact ⟨0, by omega, Or.inr (by omega)⟩
    · rintro ⟨k, hk, hin⟩
      rcases hin with ⟨h1, h2⟩ | h1
      · omega
      · omega

theorem any_overlap_congr (wins : List (Nat × Nat)) (h : Nat) (hh : h < 24)
    (hw : ∀ w ∈ wins, (w : Nat × Nat).1 ≠ w.2) :
    wins.any (fun w => overlaps w.1 w.2 (h * 60) (h * 60 + 60))
      = wins.any (fun w => specHourOverlap w.1 w.2 h) := by
  induction wins with
  | nil => rfl
  | cons w t ih =>
    simp only [List.any_cons]
    rw [overlaps_eq_specHourOverlap w.1 w.2 h hh (hw w (List.mem_cons_self w t)),
      ih (fun x hx => hw x (List.mem_cons_of_mem w hx))]

/-- C1: the effective capacity of a sector at hour `h` is `base * 2` exactly
when some configured window shares a minute with the hour bucket
`[h*60, h*60+60)` (wrapping windows read as `[start,1440) ∪ [0,end)`), else
`base * 1`; and `buildHourlyCapacity` reproduces the spec's examples — base
South=26 with window 0530–0730 gives 52 at hour 5 and 26 at hour 8, and
wrapping window 2330–0130 gives 52 at hours 23 and 0 and 26 at hour 2. -/
theorem capacity_window_doubling (base : Nat) (wins : List (Nat × Nat)) (h : Nat)
    (hh : h < 24) (hw : ∀ w ∈ wins, (w : Nat × Nat).1 ≠ w.2) :
    effectiveCapacity base wins h
      = base * (if wins.any (fun w => specHourOverlap w.1 w.2 h) then 2 else 1)
    ∧ (buildHourlyCapacity [("South", 26)] [("South", 330, 450)]).getD 5 (0, [], 0)
        = (5, [("South", 52)], 52)
    ∧ (buildHourlyCapacity [("South", 26)] [("South", 330, 450)]).getD 8 (0, [], 0)
        = (8, [("South", 26)], 26)
    ∧ (buildHourlyCapacity [("South", 26)] [("South", 1410, 90)]).getD 23 (0, [], 0)
        = (23, [("South", 52)], 52)
    ∧ (buildHourlyCapacity [("South", 26)] [("South", 1410, 90)]).getD 0 (0, [], 0)
        = (0, [("South", 52)], 52)
    ∧ (buildHourlyCapacity [("South", 26)] [("South", 1410, 90)]).getD 2 (0, [], 0)
        = (2, [("South", 26)], 26) := by
  refine ⟨?_, by decide, by decide, by decide, by decide, by decide⟩
  unfold effectiveCapacity
  rw [any_overlap_congr wins h hh hw]
  split <;> rfl

theorem capacity_window_doubling_witness :
    effectiveCapacity 26 [(330, 450)] 5
      = 26 * (if ([((330 : Nat), (450 : Nat))] : List (Nat × Nat)).any
          (fun w => specHourOverlap w.1 w.2 5) then 2 else 1) :=
  (capacity_window_doubling 26 [(330, 450)] 5 (by decide) (by decide)).1

end ATFM
